import Mathlib

/-!
# Verification of the rbac-engine policy evaluation core

A shallow embedding of the policy evaluation engine, builders, and access
orchestration of the `rbac-engine` TypeScript library, together with theorems
settling the specification claims about it.

Embedding conventions:
* JavaScript strings are embedded as `List Char` (`Str`).
* Machine `Date` parsing (`new Date(s)` / `getTime()`) is abstracted by an
  explicit parameter `parseDate : Str → Option Int`: `none` models an
  `Invalid Date` (`isNaN(d.getTime())`), `some t` models a finite millisecond
  timestamp.  The current wall-clock `new Date()` is an explicit `now : Int`.
* JavaScript truthiness tests on optional strings (`if (statement.StartDate)`)
  are embedded faithfully: a missing field and a present-but-empty string both
  fail the test.
* Promise rejections (storage not-found failures) are embedded as `Option`.
-/

namespace Rbac

/-- JavaScript strings, embedded as lists of characters. -/
abbrev Str := List Char

/-- Runtime context values (`Record<string, any>` in `src/policy/evaluator.ts`):
a small closed set of scalars compared with strict equality `===`. -/
inductive Value where
  | str (s : Str)
  | num (n : Int)
  | bool (b : Bool)
deriving DecidableEq

/-- `Effect` enumeration from `src/models.ts`: exactly `Allow` and `Deny`. -/
inductive Effect where
  | Allow
  | Deny
deriving DecidableEq

/-- `PolicyStatement` from `src/models.ts`: effect, action patterns, resource
patterns, optional condition map and optional temporal window (date strings). -/
structure PolicyStatement where
  Effect : Effect
  Action : List Str
  Resource : List Str
  Condition : Option (List (Str × Str)) := none
  StartDate : Option Str := none
  EndDate : Option Str := none
deriving DecidableEq

/-- `PolicyDocument` from `src/models.ts`. -/
structure PolicyDocument where
  Version : Str
  Statement : List PolicyStatement
deriving DecidableEq

/-- `Policy` from `src/models.ts`. -/
structure Policy where
  id : Str
  document : PolicyDocument
deriving DecidableEq

/-- First-match lookup of a key in a JavaScript object embedded as an
association list (`context[key]`; `none` models `undefined`). -/
def ctxLookup : List (Str × Value) → Str → Option Value
  | [], _ => none
  | (k, v) :: rest, key => if k = key then some v else ctxLookup rest key

/-- `evaluateCondition` (src/policy/evaluator.ts, line 9):
`Object.entries(condition).every(([key, value]) => context[key] === value)`.
A condition value is a string, so `===` succeeds exactly when the context
holds a string value equal to it (no coercion; `undefined` never equals). -/
def evaluateCondition (condition : List (Str × Str)) (context : List (Str × Value)) : Bool :=
  condition.all fun kv => decide (ctxLookup context kv.1 = some (.str kv.2))

/-- The character class matched by an unflagged JavaScript regex `.`:
any character except the four line terminators LF, CR, U+2028, U+2029. -/
def jsDot (c : Char) : Bool :=
  !(c == '\n' || c == '\r' || c == '\u2028' || c == '\u2029')

/-- `pattern.split('*')` (src/policy/evaluator.ts, line 33): the literal
segments of a pattern, splitting on every `'*'`.  Always non-empty. -/
def splitOnStar : Str → List Str
  | [] => [[]]
  | c :: rest =>
    match splitOnStar rest with
    | [] => [[]]
    | seg :: segs => if c = '*' then [] :: seg :: segs else (c :: seg) :: segs

/-- Matcher for the regex tail `.*s₁.*s₂⋯.*sₙ$` built from the remaining
segments `[s₁, …, sₙ]` (each `.*` consumes characters satisfying `ok`).
The segments are literal because `escapeRegExp` (line 17) escapes every
regex metacharacter before the segments are joined with `.*`. -/
def globAfter (ok : Char → Bool) : List Str → Str → Bool
  | [], v => v.isEmpty
  | s :: rest, v =>
    (List.range (v.length + 1)).any fun i =>
      (v.take i).all ok && decide ((v.drop i).take s.length = s) &&
        globAfter ok rest ((v.drop i).drop s.length)

/-- Matcher for the full anchored regex `^s₀.*s₁⋯.*sₙ$` built by
`"^" + pattern.split('*').map(escapeRegExp).join('.*') + "$"` (line 33)
and tested with `regex.test(value)` (line 35). -/
def globMatch (ok : Char → Bool) (segs : List Str) (v : Str) : Bool :=
  match segs with
  | [] => v.isEmpty
  | s :: rest => decide (v.take s.length = s) && globAfter ok rest (v.drop s.length)

/-- Single-string branch of `matches` (src/policy/evaluator.ts, lines 32-37):
wildcard patterns are compiled to a regex; star-free patterns use `===`. -/
def matchSingle (p v : Str) : Bool :=
  if p.contains '*' then globMatch jsDot (splitOnStar p) v
  else p == v

/-- The `string | string[]` union type of the `pattern` argument of `matches`. -/
inductive Pattern where
  | str (p : Str)
  | arr (ps : List Str)

/-- `matches` (src/policy/evaluator.ts, lines 27-38); named `matchesFn` because
`matches` is reserved in Lean.  An array pattern matches iff some element
matches (`pattern.some(p => matches(p, value))`). -/
def matchesFn : Pattern → Str → Bool
  | .arr ps, v => ps.any fun p => matchSingle p v
  | .str p, v => matchSingle p v

/-- `isStatementActive` (src/db/factory.ts, lines 116-154).  Each bound is
checked only when the field is truthy (present and non-empty); an invalid
date (`isNaN(getTime())`) fails closed; bounds are inclusive
(`now < start` resp. `now > end` deactivate). -/
def isStatementActive (parseDate : Str → Option Int) (now : Int) (s : PolicyStatement) : Bool :=
  (match s.StartDate with
   | none => true
   | some d =>
     if d = [] then true
     else
       match parseDate d with
       | none => false
       | some t => decide (t ≤ now)) &&
  (match s.EndDate with
   | none => true
   | some d =>
     if d = [] then true
     else
       match parseDate d with
       | none => false
       | some t => decide (now ≤ t))

/-- The condition skip test of `evaluate` (src/db/factory.ts, line 184):
`statement.Condition && !evaluateCondition(statement.Condition, context)`.
An object is always truthy, so the test fires exactly when a condition map is
present and fails. -/
def condSkip (s : PolicyStatement) (context : List (Str × Value)) : Bool :=
  match s.Condition with
  | none => false
  | some c => !(evaluateCondition c context)

/-- The inner statement loop of `evaluate` (src/db/factory.ts, lines 177-195),
threading the `isAllowed` accumulator; `none` models the early `return false`
taken when an applicable `Deny` statement is met. -/
def scanStatements (parseDate : Str → Option Int) (now : Int) (action resource : Str)
    (context : List (Str × Value)) : List PolicyStatement → Bool → Option Bool
  | [], isAllowed => some isAllowed
  | s :: rest, isAllowed =>
    if !(isStatementActive parseDate now s) then
      scanStatements parseDate now action resource context rest isAllowed
    else if condSkip s context then
      scanStatements parseDate now action resource context rest isAllowed
    else if matchesFn (.arr s.Action) action && matchesFn (.arr s.Resource) resource then
      match s.Effect with
      | .Allow => scanStatements parseDate now action resource context rest true
      | .Deny => none
    else
      scanStatements parseDate now action resource context rest isAllowed

/-- The outer policy loop of `evaluate` (src/db/factory.ts, lines 173-196).
The `Array.isArray` normalisation of `document.Statement` is the identity
here because the embedded field is already a list. -/
def scanPolicies (parseDate : Str → Option Int) (now : Int) (action resource : Str)
    (context : List (Str × Value)) : List Policy → Bool → Option Bool
  | [], isAllowed => some isAllowed
  | p :: rest, isAllowed =>
    match scanStatements parseDate now action resource context p.document.Statement isAllowed with
    | none => none
    | some isAllowed' => scanPolicies parseDate now action resource context rest isAllowed'

/-- `evaluate` (src/db/factory.ts, lines 166-198): deny-override evaluation of
a policy list; starts with `isAllowed = false`, an applicable `Deny` returns
`false` immediately, otherwise the accumulated flag is returned. -/
def evaluate (parseDate : Str → Option Int) (now : Int) (policies : List Policy)
    (action resource : Str) (context : List (Str × Value) := []) : Bool :=
  match scanPolicies parseDate now action resource context policies false with
  | none => false
  | some isAllowed => isAllowed

end Rbac

namespace Rbac

/-! ## Segment-wildcard semantics of the pattern matcher -/

/-- Declarative semantics of the anchored regex built from wildcard segments:
`Glob ok segs v` holds iff `v` is the concatenation of the literal segments
with a filler of `ok`-characters inserted at each former `'*'` position. -/
inductive Glob (ok : Char → Bool) : List Str → Str → Prop where
  | single (s : Str) : Glob ok [s] s
  | cons (s w s₂ : Str) (rest : List Str) (v : Str) :
      (∀ c ∈ w, ok c = true) → Glob ok (s₂ :: rest) v →
      Glob ok (s :: s₂ :: rest) (s ++ (w ++ v))

lemma glob_single_iff {ok : Char → Bool} {s v : Str} : Glob ok [s] v ↔ v = s := by
  constructor
  · intro h
    cases h
    rfl
  · rintro rfl
    exact Glob.single _

lemma globAfter_cons (ok : Char → Bool) (s₂ : Str) (rest : List Str) (u : Str) :
    globAfter ok (s₂ :: rest) u =
      (List.range (u.length + 1)).any fun i =>
        (u.take i).all ok && globMatch ok (s₂ :: rest) (u.drop i) := by
  simp [globAfter, globMatch, Bool.and_assoc]

/-- The executable matcher agrees with the declarative segment-wildcard
semantics on every non-empty segment list. -/
theorem globMatch_iff_glob (ok : Char → Bool) (s : Str) (rest : List Str) (v : Str) :
    globMatch ok (s :: rest) v = true ↔ Glob ok (s :: rest) v := by
  induction rest generalizing s v with
  | nil =>
    simp only [globMatch, globAfter, Bool.and_eq_true, decide_eq_true_eq, List.isEmpty_iff]
    constructor
    · rintro ⟨h1, h2⟩
      have hv : v = s := by
        conv_lhs => rw [← List.take_append_drop s.length v]
        rw [h1, h2, List.append_nil]
      rw [hv]
      exact Glob.single s
    · intro h
      cases h
      refine ⟨?_, ?_⟩
      · rw [List.take_length]
      · rw [List.drop_length]
  | cons s₂ rest' ih =>
    constructor
    · intro h
      simp only [globMatch, Bool.and_eq_true, decide_eq_true_eq] at h
      obtain ⟨h1, h2⟩ := h
      obtain ⟨u, rfl⟩ : ∃ u, v = s ++ u := by
        refine ⟨v.drop s.length, ?_⟩
        conv_lhs => rw [← List.take_append_drop s.length v]
        rw [h1]
      rw [List.drop_left, globAfter_cons, List.any_eq_true] at h2
      obtain ⟨i, _, hbody⟩ := h2
      simp only [Bool.and_eq_true, List.all_eq_true] at hbody
      obtain ⟨hall, hmatch⟩ := hbody
      have hglob := (ih s₂ (u.drop i)).mp hmatch
      rw [← List.take_append_drop i u]
      exact Glob.cons s (u.take i) s₂ rest' (u.drop i) hall hglob
    · intro h
      cases h with
      | cons s' w s₂' rest'' v' hw hg =>
        have hm : globMatch ok (s₂ :: rest') v' = true := (ih s₂ v').mpr hg
        simp only [globMatch, Bool.and_eq_true, decide_eq_true_eq]
        refine ⟨List.take_left s (w ++ v'), ?_⟩
        rw [List.drop_left, globAfter_cons, List.any_eq_true]
        refine ⟨w.length, ?_, ?_⟩
        · simp only [List.mem_range, List.length_append]
          omega
        · simp only [Bool.and_eq_true, List.take_left, List.drop_left, List.all_eq_true]
          exact ⟨hw, hm⟩

lemma splitOnStar_ne_nil (p : Str) : splitOnStar p ≠ [] := by
  cases p with
  | nil => simp [splitOnStar]
  | cons c rest =>
    rw [splitOnStar]
    rcases splitOnStar rest with _ | ⟨seg, segs⟩
    · simp
    · by_cases hc : c = '*' <;> simp [hc]

lemma splitOnStar_of_no_star (p : Str) (h : p.contains '*' = false) : splitOnStar p = [p] := by
  induction p with
  | nil => rfl
  | cons c rest ih =>
    simp only [List.contains_cons, Bool.or_eq_false_iff] at h
    rw [splitOnStar, ih h.2]
    have hc : c ≠ '*' := Ne.symm (beq_eq_false_iff_ne.mp h.1)
    simp [hc]

/-- `matchSingle` decides exactly the segment-wildcard semantics with
JavaScript-`.` fillers, for every pattern (with or without a wildcard). -/
theorem matchSingle_iff_glob (p v : Str) :
    matchSingle p v = true ↔ Glob jsDot (splitOnStar p) v := by
  rw [matchSingle]
  by_cases h : p.contains '*' = true
  · rw [if_pos h]
    obtain ⟨s, rest, hsr⟩ : ∃ s rest, splitOnStar p = s :: rest := by
      rcases hsp : splitOnStar p with _ | ⟨s, rest⟩
      · exact absurd hsp (splitOnStar_ne_nil p)
      · exact ⟨s, rest, rfl⟩
    rw [hsr]
    exact globMatch_iff_glob jsDot s rest v
  · rw [if_neg h]
    rw [splitOnStar_of_no_star p (by simpa using h)]
    rw [glob_single_iff, beq_iff_eq]
    exact eq_comm

end Rbac

namespace Rbac

/-! ## Deny-override characterisation of `evaluate` -/

/-- A statement is applicable to a request iff it passes the temporal gate,
passes the condition gate, and its action and resource patterns both match. -/
def stmtApplies (parseDate : Str → Option Int) (now : Int) (action resource : Str)
    (context : List (Str × Value)) (s : PolicyStatement) : Bool :=
  isStatementActive parseDate now s && !(condSkip s context) &&
    matchesFn (.arr s.Action) action && matchesFn (.arr s.Resource) resource

/-- Some statement of some policy is applicable and carries the given effect. -/
def hasApplicable (e : Effect) (parseDate : Str → Option Int) (now : Int)
    (action resource : Str) (context : List (Str × Value)) (policies : List Policy) : Bool :=
  policies.any fun p => p.document.Statement.any fun s =>
    stmtApplies parseDate now action resource context s && decide (s.Effect = e)

lemma scanStatements_eq (parseDate : Str → Option Int) (now : Int) (action resource : Str)
    (context : List (Str × Value)) (stmts : List PolicyStatement) (acc : Bool) :
    scanStatements parseDate now action resource context stmts acc =
      if stmts.any (fun s => stmtApplies parseDate now action resource context s &&
            decide (s.Effect = .Deny)) then
        none
      else
        some (acc || stmts.any (fun s => stmtApplies parseDate now action resource context s &&
            decide (s.Effect = .Allow))) := by
  induction stmts generalizing acc with
  | nil => simp [scanStatements]
  | cons s rest ih =>
    rcases hA : isStatementActive parseDate now s with _ | _ <;>
      rcases hK : condSkip s context with _ | _ <;>
      rcases hM : matchesFn (.arr s.Action) action && matchesFn (.arr s.Resource) resource
        with _ | _ <;>
      cases hE : s.Effect <;>
      simp [scanStatements, stmtApplies, hA, hK, hM, hE, ih,
        Bool.and_eq_true, Bool.or_assoc]

lemma scanPolicies_eq (parseDate : Str → Option Int) (now : Int) (action resource : Str)
    (context : List (Str × Value)) (policies : List Policy) (acc : Bool) :
    scanPolicies parseDate now action resource context policies acc =
      if hasApplicable .Deny parseDate now action resource context policies then none
      else some (acc || hasApplicable .Allow parseDate now action resource context policies) := by
  induction policies generalizing acc with
  | nil => simp [scanPolicies, hasApplicable]
  | cons p rest ih =>
    rw [scanPolicies, scanStatements_eq]
    by_cases hd : p.document.Statement.any fun s =>
        stmtApplies parseDate now action resource context s && decide (s.Effect = .Deny)
    · simp [hd, hasApplicable, List.any_cons]
    · simp only [hd, if_neg, ih, hasApplicable, List.any_cons, Bool.false_or, if_false]
      by_cases hrest : rest.any fun p => p.document.Statement.any fun s =>
          stmtApplies parseDate now action resource context s && decide (s.Effect = .Deny)
      · simp [hrest, hd]
      · simp [hrest, hd, Bool.or_assoc]

/-- `evaluate` grants access iff no applicable statement denies and some
applicable statement allows: deny always overrides, independently of order. -/
theorem evaluate_eq_deny_override (parseDate : Str → Option Int) (now : Int)
    (policies : List Policy) (action resource : Str) (context : List (Str × Value)) :
    evaluate parseDate now policies action resource context =
      (!(hasApplicable .Deny parseDate now action resource context policies) &&
        hasApplicable .Allow parseDate now action resource context policies) := by
  rw [evaluate, scanPolicies_eq]
  by_cases h : hasApplicable .Deny parseDate now action resource context policies = true <;>
    simp [h]

end Rbac

namespace Rbac

/-! ## Builders (src/builders/statement-builder.ts, src/builders/policy-builder.ts) -/

/-- `BuilderValidationError` (src/builders/types.ts): a message plus the full
list of violated rules. -/
structure BuilderValidationError where
  message : String
  errors : List String := []
deriving DecidableEq

def msgEffect : String := "Effect must be set using either allow() or deny()"

def msgNoActions : String := "At least one action must be specified"

def msgNoResources : String := "At least one resource must be specified using on()"

def msgActionStrings : String := "All actions must be non-empty strings"

def msgResourceStrings : String := "All resources must be non-empty strings"

def msgStartDate : String := "StartDate must be a valid ISO format date string"

def msgEndDate : String := "EndDate must be a valid ISO format date string"

def msgDateOrder : String := "StartDate must be before EndDate"

def msgInvalidStatement : String := "Invalid statement configuration"

/-- The mutable state of a `StatementBuilder` (src/builders/statement-builder.ts,
lines 24-30). -/
structure StatementBuilder where
  effect : Option Effect := none
  actions : List Str := []
  resources : List Str := []
  conditions : Option (List (Str × Str)) := none
  startDate : Option Str := none
  endDate : Option Str := none
deriving DecidableEq

namespace StatementBuilder

/-- `allow(actions)`: sets `Effect.Allow` and replaces the action list. -/
def allow (acts : List Str) (b : StatementBuilder) : StatementBuilder :=
  { b with effect := some .Allow, actions := acts }

/-- `deny(actions)`: sets `Effect.Deny` and replaces the action list. -/
def deny (acts : List Str) (b : StatementBuilder) : StatementBuilder :=
  { b with effect := some .Deny, actions := acts }

/-- `on(resources)`: replaces the resource list (`on` is reserved in Lean,
hence the name `onRes`). -/
def onRes (res : List Str) (b : StatementBuilder) : StatementBuilder :=
  { b with resources := res }

/-- `when(conditions)`: replaces the condition map. -/
def when (conds : List (Str × Str)) (b : StatementBuilder) : StatementBuilder :=
  { b with conditions := some conds }

/-- `activeFrom(startDate)`: records the start date string, unvalidated. -/
def activeFrom (d : Str) (b : StatementBuilder) : StatementBuilder :=
  { b with startDate := some d }

/-- `activeUntil(endDate)`: records the end date string, unvalidated. -/
def activeUntil (d : Str) (b : StatementBuilder) : StatementBuilder :=
  { b with endDate := some d }

/-- `validate()` (src/builders/statement-builder.ts, lines 105-159): pushes one
message per violated rule, in source order.  The date checks run only when the
stored string is truthy (`if (this.startDate)`), so an empty-string date is
skipped; the order check compares `getTime()` values, and a `NaN` from an
invalid date makes the `>=` comparison false, so no order error is pushed. -/
def validate (parseDate : Str → Option Int) (b : StatementBuilder) : List String :=
  (if b.effect.isNone then [msgEffect] else []) ++
  (if b.actions.length = 0 then [msgNoActions] else []) ++
  (if b.resources.length = 0 then [msgNoResources] else []) ++
  (if b.actions.any (fun a => a.isEmpty) then [msgActionStrings] else []) ++
  (if b.resources.any (fun r => r.isEmpty) then [msgResourceStrings] else []) ++
  (match b.startDate with
   | some d => if d ≠ [] ∧ parseDate d = none then [msgStartDate] else []
   | none => []) ++
  (match b.endDate with
   | some d => if d ≠ [] ∧ parseDate d = none then [msgEndDate] else []
   | none => []) ++
  (match b.startDate, b.endDate with
   | some ds, some de =>
     if ds ≠ [] ∧ de ≠ [] then
       match parseDate ds, parseDate de with
       | some ts, some te => if ts ≥ te then [msgDateOrder] else []
       | _, _ => []
     else []
   | _, _ => [])

/-- `build()` (src/builders/statement-builder.ts, lines 168-198): throws a
`BuilderValidationError` carrying the full error list when validation fails,
otherwise assembles the statement; the optional fields are copied only when
truthy (`if (this.startDate)`), so empty-string dates are omitted.  The
`none` effect branch is unreachable when the error list is empty and models
the source's non-null assertion `this.effect!`. -/
def build (parseDate : Str → Option Int) (b : StatementBuilder) :
    Except BuilderValidationError PolicyStatement :=
  let errors := validate parseDate b
  if errors.isEmpty then
    match b.effect with
    | some e =>
      .ok { Effect := e
            Action := b.actions
            Resource := b.resources
            Condition := b.conditions
            StartDate := match b.startDate with
              | some d => if d = [] then none else some d
              | none => none
            EndDate := match b.endDate with
              | some d => if d = [] then none else some d
              | none => none }
    | none => .error { message := msgInvalidStatement, errors := errors }
  else
    .error { message := msgInvalidStatement, errors := errors }

end StatementBuilder

def msgMixSimpleAfterComplex : String :=
  "Cannot use simple statement methods (allow/deny/on/when) after using statement() method. Use either simple mode or complex mode, not both."

def msgMixComplexAfterSimple : String :=
  "Cannot mix simple statement methods (allow/deny/on/when) with statement() method. Use either simple mode or complex mode, not both."

def msgPolicyId : String := "Policy ID must be a non-empty string"

def msgVersion : String := "Policy document version must be a non-empty string"

def msgNoStatements : String :=
  "Policy must contain at least one statement. Use allow()/deny() methods or statement() method."

def msgInvalidPolicy : String := "Invalid policy configuration"

/-- The mutable state of a `PolicyBuilder` (src/builders/policy-builder.ts,
lines 34-41); the default document version is `'2023-11-15'`. -/
structure PolicyBuilder where
  policyId : Str
  documentVersion : Str := "2023-11-15".toList
  policyStatements : List PolicyStatement := []
  hasSimpleStatement : Bool := false
  simpleStatementBuilder : Option StatementBuilder := none
deriving DecidableEq

/-- The `StatementBuilder | PolicyStatement` union accepted by `statement()`. -/
inductive StatementArg where
  | builder (b : StatementBuilder)
  | stmt (s : PolicyStatement)

namespace PolicyBuilder

/-- `new PolicyBuilder(id)` (src/builders/policy-builder.ts, lines 48-50). -/
def create (id : Str) : PolicyBuilder :=
  { policyId := id }

/-- `ensureSimpleStatementMode()` (src/builders/policy-builder.ts, lines
178-190): throws when explicit statements already exist; otherwise creates the
implicit statement builder on first use and flags simple mode. -/
def ensureSimpleStatementMode (b : PolicyBuilder) :
    Except BuilderValidationError PolicyBuilder :=
  if b.policyStatements.length > 0 then
    .error { message := msgMixSimpleAfterComplex }
  else if b.simpleStatementBuilder.isNone then
    .ok { b with simpleStatementBuilder := some {}, hasSimpleStatement := true }
  else
    .ok b

/-- `allow(actions)` in simple mode (lines 70-74). -/
def allow (acts : List Str) (b : PolicyBuilder) : Except BuilderValidationError PolicyBuilder :=
  (ensureSimpleStatementMode b).map fun b' =>
    { b' with simpleStatementBuilder := b'.simpleStatementBuilder.map (.allow acts) }

/-- `deny(actions)` in simple mode (lines 83-87). -/
def deny (acts : List Str) (b : PolicyBuilder) : Except BuilderValidationError PolicyBuilder :=
  (ensureSimpleStatementMode b).map fun b' =>
    { b' with simpleStatementBuilder := b'.simpleStatementBuilder.map (.deny acts) }

/-- `on(resources)` in simple mode (lines 96-100); named `onRes` as above. -/
def onRes (res : List Str) (b : PolicyBuilder) : Except BuilderValidationError PolicyBuilder :=
  (ensureSimpleStatementMode b).map fun b' =>
    { b' with simpleStatementBuilder := b'.simpleStatementBuilder.map (.onRes res) }

/-- `when(conditions)` in simple mode (lines 109-113). -/
def when (conds : List (Str × Str)) (b : PolicyBuilder) :
    Except BuilderValidationError PolicyBuilder :=
  (ensureSimpleStatementMode b).map fun b' =>
    { b' with simpleStatementBuilder := b'.simpleStatementBuilder.map (.when conds) }

/-- `activeFrom(startDate)` in simple mode (lines 122-126). -/
def activeFrom (d : Str) (b : PolicyBuilder) : Except BuilderValidationError PolicyBuilder :=
  (ensureSimpleStatementMode b).map fun b' =>
    { b' with simpleStatementBuilder := b'.simpleStatementBuilder.map (.activeFrom d) }

/-- `activeUntil(endDate)` in simple mode (lines 135-139). -/
def activeUntil (d : Str) (b : PolicyBuilder) : Except BuilderValidationError PolicyBuilder :=
  (ensureSimpleStatementMode b).map fun b' =>
    { b' with simpleStatementBuilder := b'.simpleStatementBuilder.map (.activeUntil d) }

/-- The ternary `statementBuilder instanceof StatementBuilder ?
statementBuilder.build() : statementBuilder` of `statement()`: a builder
argument is finalised with its own `build()` (which may fail), a pre-built
statement passes through. -/
def resolveArg (parseDate : Str → Option Int) :
    StatementArg → Except BuilderValidationError PolicyStatement
  | .builder sb => StatementBuilder.build parseDate sb
  | .stmt s => .ok s

/-- `statement(statementBuilder)` (src/builders/policy-builder.ts, lines
148-162): throws when simple mode is in use; otherwise resolves the argument
(surfacing a builder's validation error) and appends the statement. -/
def statement (parseDate : Str → Option Int) (arg : StatementArg) (b : PolicyBuilder) :
    Except BuilderValidationError PolicyBuilder :=
  if b.hasSimpleStatement then
    .error { message := msgMixComplexAfterSimple }
  else
    match resolveArg parseDate arg with
    | .ok s => .ok { b with policyStatements := b.policyStatements ++ [s] }
    | .error e => .error e

/-- `getAllStatements()` (lines 225-237): the explicit statements plus, in
simple mode, the implicit statement when it builds; a failing implicit build
is swallowed here (`catch`) and caught again by `validate`. -/
def getAllStatements (parseDate : Str → Option Int) (b : PolicyBuilder) : List PolicyStatement :=
  b.policyStatements ++
    (if b.hasSimpleStatement then
      match b.simpleStatementBuilder with
      | some sb =>
        match StatementBuilder.build parseDate sb with
        | .ok s => [s]
        | .error _ => []
      | none => []
    else [])

/-- `validate()` (src/builders/policy-builder.ts, lines 197-220). -/
def validate (parseDate : Str → Option Int) (b : PolicyBuilder) : List String :=
  (if b.policyId.isEmpty then [msgPolicyId] else []) ++
  (if b.documentVersion.isEmpty then [msgVersion] else []) ++
  (if (getAllStatements parseDate b).length = 0 then [msgNoStatements] else [])

/-- `build()` (src/builders/policy-builder.ts, lines 246-268). -/
def build (parseDate : Str → Option Int) (b : PolicyBuilder) :
    Except BuilderValidationError Policy :=
  let errors := validate parseDate b
  if errors.isEmpty then
    .ok { id := b.policyId
          document := { Version := b.documentVersion
                        Statement := getAllStatements parseDate b } }
  else
    .error { message := msgInvalidPolicy, errors := errors }

end PolicyBuilder

/-! ## Access orchestration (src/core.ts) -/

/-- `User` from `src/models.ts`. -/
structure User where
  id : Str
  name : Str
  roles : Option (List Str) := none
  policies : Option (List Str) := none
deriving DecidableEq

/-- The slice of the `IBaseRepository` storage contract (src/db/base-repo.ts)
used by `hasAccess`; `none` from `getUser` models the repository's
rejected promise for a missing user. -/
structure IBaseRepository where
  getUser : Str → Option User
  getUserPolicies : Str → List Policy
  getRolePolicies : Str → List Policy

/-- `AccessControl.hasAccess` (src/core.ts, lines 278-292): fetch the user,
fetch the direct policies and every role's policies (`user.roles || []`),
flatten the role results, concatenate direct policies first, and delegate to
`evaluate`.  `none` models the propagated user-not-found rejection. -/
def hasAccess (repo : IBaseRepository) (parseDate : Str → Option Int) (now : Int)
    (userId action resource : Str) (context : List (Str × Value) := []) : Option Bool :=
  match repo.getUser userId with
  | none => none
  | some user =>
    let userPolicies := repo.getUserPolicies userId
    let rolePoliciesNested := (user.roles.getD []).map repo.getRolePolicies
    let allPolicies := userPolicies ++ rolePoliciesNested.flatten
    some (evaluate parseDate now allPolicies action resource context)

end Rbac

namespace Rbac

/-! ## Helper lemmas -/

lemma any_congr {α : Type} {l : List α} {p q : α → Bool} (h : ∀ a ∈ l, p a = q a) :
    l.any p = l.any q := by
  induction l with
  | nil => rfl
  | cons a l ih =>
    simp only [List.any_cons, h a (by simp)]
    rw [ih fun x hx => h x (by simp [hx])]

lemma all_congr {α : Type} {l : List α} {p q : α → Bool} (h : ∀ a ∈ l, p a = q a) :
    l.all p = l.all q := by
  induction l with
  | nil => rfl
  | cons a l ih =>
    simp only [List.all_cons, h a (by simp)]
    rw [ih fun x hx => h x (by simp [hx])]

lemma any_perm {α : Type} {l₁ l₂ : List α} (h : l₁.Perm l₂) (f : α → Bool) :
    l₁.any f = l₂.any f := by
  have hiff : l₁.any f = true ↔ l₂.any f = true := by
    simp only [List.any_eq_true]
    exact ⟨fun ⟨x, hx, hf⟩ => ⟨x, h.mem_iff.mp hx, hf⟩,
           fun ⟨x, hx, hf⟩ => ⟨x, h.mem_iff.mpr hx, hf⟩⟩
  cases h2 : l₂.any f
  · cases h1 : l₁.any f
    · rfl
    · exact absurd (hiff.mp h1) (by simp [h2])
  · exact hiff.mpr h2

lemma hasApplicable_perm (e : Effect) (parseDate : Str → Option Int) (now : Int)
    (action resource : Str) (context : List (Str × Value)) {ps qs : List Policy}
    (h : ps.Perm qs) :
    hasApplicable e parseDate now action resource context ps =
      hasApplicable e parseDate now action resource context qs :=
  any_perm h _

/-! ## Claim theorems -/

/-- C6: fail-closed on no policies — for every action, resource, and context,
`evaluate` applied to the empty policy sequence returns `false`. -/
theorem claim6_evaluate_empty_fail_closed (parseDate : Str → Option Int) (now : Int)
    (action resource : Str) (context : List (Str × Value)) :
    evaluate parseDate now [] action resource context = false := rfl

/-- C1: deny-override and order-independence of `evaluate` — permuting the
policy sequence never changes the result, and for an Allow-granting policy
`A` and a Deny-granting policy `D` whose applicable (active,
condition-satisfied, matching) statements cover the same request, both orders
evaluate to `false`. -/
theorem claim1_deny_override_order_independence :
    (∀ (parseDate : Str → Option Int) (now : Int) (ps qs : List Policy)
       (action resource : Str) (context : List (Str × Value)),
       ps.Perm qs →
       evaluate parseDate now ps action resource context =
         evaluate parseDate now qs action resource context) ∧
    (∀ (parseDate : Str → Option Int) (now : Int) (A D : Policy)
       (action resource : Str) (context : List (Str × Value)),
       (∃ s ∈ A.document.Statement,
          stmtApplies parseDate now action resource context s = true ∧ s.Effect = .Allow) →
       (∃ s ∈ D.document.Statement,
          stmtApplies parseDate now action resource context s = true ∧ s.Effect = .Deny) →
       evaluate parseDate now [A, D] action resource context = false ∧
       evaluate parseDate now [D, A] action resource context = false) := by
  constructor
  · intro parseDate now ps qs action resource context h
    rw [evaluate_eq_deny_override, evaluate_eq_deny_override,
      hasApplicable_perm .Deny parseDate now action resource context h,
      hasApplicable_perm .Allow parseDate now action resource context h]
  · intro parseDate now A D action resource context _ hD
    have hden : ∀ (l : List Policy), D ∈ l →
        hasApplicable .Deny parseDate now action resource context l = true := by
      intro l hl
      obtain ⟨s, hs, happ, heff⟩ := hD
      simp only [hasApplicable, List.any_eq_true]
      exact ⟨D, hl, s, hs, by simp [happ, heff]⟩
    constructor <;>
      rw [evaluate_eq_deny_override] <;>
      simp [hden [A, D] (by simp), hden [D, A] (by simp)]

/-- C4: `evaluateCondition` is true iff every declared key is present in the
context with an exactly equal (string) value; a missing key forces `false`;
context keys not mentioned by the condition are ignored; the empty condition
map is vacuously true. -/
theorem claim4_condition_evaluation (condition : List (Str × Str))
    (context : List (Str × Value)) :
    (evaluateCondition condition context = true ↔
       ∀ kv ∈ condition, ctxLookup context kv.1 = some (.str kv.2)) ∧
    ((∃ kv ∈ condition, ctxLookup context kv.1 = none) →
       evaluateCondition condition context = false) ∧
    (∀ k v, (∀ kv ∈ condition, kv.1 ≠ k) →
       evaluateCondition condition ((k, v) :: context) =
         evaluateCondition condition context) ∧
    evaluateCondition [] context = true := by
  refine ⟨?_, ?_, ?_, rfl⟩
  · simp [evaluateCondition, List.all_eq_true]
  · rintro ⟨kv, hmem, hnone⟩
    cases h : evaluateCondition condition context
    · rfl
    · exfalso
      simp only [evaluateCondition, List.all_eq_true, decide_eq_true_eq] at h
      have h2 := h kv hmem
      rw [hnone] at h2
      cases h2
  · intro k v hk
    unfold evaluateCondition
    apply all_congr
    intro kv hm
    have hne : k ≠ kv.1 := fun hh => (hk kv hm) hh.symm
    simp [ctxLookup, hne]

/-- Keeps exactly the statements that pass the temporal gate and the condition
gate for the given instant and context. -/
def keepActiveStatements (parseDate : Str → Option Int) (now : Int)
    (context : List (Str × Value)) (p : Policy) : Policy :=
  { p with document := { p.document with Statement := p.document.Statement.filter (fun s => isStatementActive parseDate now s && !(condSkip s context)) } }

/-- C2: gating in `evaluate` — statements that are temporally inactive or whose
condition fails are skipped and have no effect: deleting all of them (Deny
statements included) from every policy document leaves the result unchanged,
and appending a policy all of whose statements are inactive or
condition-failing never changes the decision (such a Deny does not deny). -/
theorem claim2_inactive_statements_no_effect :
    (∀ (parseDate : Str → Option Int) (now : Int) (ps : List Policy)
       (action resource : Str) (context : List (Str × Value)),
       evaluate parseDate now (ps.map (keepActiveStatements parseDate now context))
           action resource context =
         evaluate parseDate now ps action resource context) ∧
    (∀ (parseDate : Str → Option Int) (now : Int) (ps : List Policy)
       (action resource : Str) (context : List (Str × Value)) (p : Policy),
       (∀ s ∈ p.document.Statement,
          isStatementActive parseDate now s = false ∨ condSkip s context = true) →
       evaluate parseDate now (ps ++ [p]) action resource context =
         evaluate parseDate now ps action resource context) := by
  constructor
  · intro parseDate now ps action resource context
    rw [evaluate_eq_deny_override, evaluate_eq_deny_override]
    have hmap : ∀ e, hasApplicable e parseDate now action resource context
        (ps.map (keepActiveStatements parseDate now context)) =
        hasApplicable e parseDate now action resource context ps := by
      intro e
      unfold hasApplicable
      rw [List.any_map]
      apply any_congr
      intro p _
      show ((keepActiveStatements parseDate now context p).document.Statement).any _ =
        p.document.Statement.any _
      rw [keepActiveStatements, List.any_filter]
      apply any_congr
      intro s _
      cases hA : isStatementActive parseDate now s <;>
        cases hK : condSkip s context <;>
        simp [stmtApplies, hA, hK]
    rw [hmap, hmap]
  · intro parseDate now ps action resource context p h
    rw [evaluate_eq_deny_override, evaluate_eq_deny_override]
    have happ : ∀ e, hasApplicable e parseDate now action resource context (ps ++ [p]) =
        hasApplicable e parseDate now action resource context ps := by
      intro e
      unfold hasApplicable
      rw [List.any_append]
      have hp : (p.document.Statement.any fun s =>
          stmtApplies parseDate now action resource context s &&
            decide (s.Effect = e)) = false := by
        rw [List.any_eq_false]
        intro s hs
        rcases h s hs with hA | hK
        · simp [stmtApplies, hA]
        · simp [stmtApplies, hK]
      simp [hp]
    rw [happ, happ]

/-- Keeps exactly the statements whose `Action` and `Resource` pattern arrays
are both non-empty. -/
def dropEmptyPatternStatements (p : Policy) : Policy :=
  { p with document := { p.document with Statement := p.document.Statement.filter (fun s => !(s.Action.isEmpty) && !(s.Resource.isEmpty)) } }

/-- C10: an empty pattern array matches nothing (`[].some(...)` is `false`),
so a statement whose `Action` or `Resource` array is empty matches no request
inside `evaluate` and can neither grant nor deny: deleting every such
statement leaves every evaluation unchanged. -/
theorem claim10_empty_pattern_array_matches_nothing :
    (∀ v : Str, matchesFn (.arr []) v = false) ∧
    (∀ (parseDate : Str → Option Int) (now : Int) (ps : List Policy)
       (action resource : Str) (context : List (Str × Value)),
       evaluate parseDate now (ps.map dropEmptyPatternStatements) action resource context =
         evaluate parseDate now ps action resource context) := by
  constructor
  · intro v
    rfl
  · intro parseDate now ps action resource context
    rw [evaluate_eq_deny_override, evaluate_eq_deny_override]
    have hmap : ∀ e, hasApplicable e parseDate now action resource context
        (ps.map dropEmptyPatternStatements) =
        hasApplicable e parseDate now action resource context ps := by
      intro e
      unfold hasApplicable
      rw [List.any_map]
      apply any_congr
      intro p _
      show ((dropEmptyPatternStatements p).document.Statement).any _ =
        p.document.Statement.any _
      rw [dropEmptyPatternStatements, List.any_filter]
      apply any_congr
      intro s _
      rcases hAct : s.Action with _ | ⟨a0, arest⟩
      · simp [stmtApplies, matchesFn, hAct]
      · rcases hRes : s.Resource with _ | ⟨r0, rrest⟩
        · simp [stmtApplies, matchesFn, hRes]
        · simp [hAct, hRes]
    rw [hmap, hmap]

end Rbac

namespace Rbac

/-- A date-parse function with no parseable dates; in particular the empty
string is unparseable, as in JavaScript (`new Date('')` is an Invalid Date). -/
def parseNone : Str → Option Int := fun _ => none

/-- C3 counterexample: the claim reads `matches(p, v)` as true iff `v` is the
segments of `p` interleaved with **arbitrary** substrings (filler predicate
`fun _ => true`).  At `p = "a*b"`, `v = "a\nb"` the code returns `false`
(the compiled regex `^a.*b$` has no `s` flag, so `.` rejects `'\n'`), yet the
arbitrary-substring semantics accepts, so the stated equivalence fails. -/
theorem claim3_counterexample :
    ¬ (matchSingle ("a*b".toList) ("a\nb".toList) = true ↔
        Glob (fun _ => true) (splitOnStar ("a*b".toList)) ("a\nb".toList)) := by
  intro hiff
  have hglob : Glob (fun _ => true) (splitOnStar ("a*b".toList)) ("a\nb".toList) := by
    have hsplit : splitOnStar ("a*b".toList) = [['a'], ['b']] := by decide
    have hval : ("a\nb".toList : Str) = ['a'] ++ (['\n'] ++ ['b']) := by decide
    rw [hsplit, hval]
    exact Glob.cons ['a'] ['\n'] ['b'] [] ['b'] (by simp) (Glob.single ['b'])
  exact absurd (hiff.mpr hglob) (by decide)

/-- C3 (amended): single-pattern wildcard semantics — `matches(p, v)` is true
iff `v` equals the concatenation of the literal segments obtained by splitting
`p` on `'*'` with arbitrary (possibly empty) substrings **free of the four
line-terminator characters** substituted at each former `'*'` position,
anchored at both ends, with pattern characters compared literally and
case-sensitively (`Glob` compares segment characters by equality); a pattern
with no `'*'` matches only the identical string; and the two concrete
instances of the claim hold. -/
theorem claim3_single_pattern_wildcard_semantics :
    (∀ p v : Str, matchSingle p v = true ↔ Glob jsDot (splitOnStar p) v) ∧
    (∀ p v : Str, p.contains '*' = false → (matchSingle p v = true ↔ v = p)) ∧
    matchSingle ("document:*:sensitive".toList) ("document:sensitive".toList) = false ∧
    matchSingle ("a*b*c".toList) ("abc".toList) = true := by
  refine ⟨matchSingle_iff_glob, ?_, by decide, by decide⟩
  intro p v h
  rw [matchSingle, if_neg (by rw [h]; exact Bool.false_ne_true), beq_iff_eq]
  exact eq_comm

/-- C3 witness: the star-free clause of the amended theorem applied at a
concrete pattern and value. -/
theorem claim3_witness : matchSingle ("read".toList) ("read".toList) = true :=
  (claim3_single_pattern_wildcard_semantics.2.1 ("read".toList) ("read".toList)
    (by decide)).mpr (by decide)

/-- C5 counterexample: a statement whose `StartDate` is present but the empty
string.  The empty string is unparseable (`parseNone` parses nothing, matching
JavaScript where `new Date('')` is invalid), so the claim requires
`isStatementActive` to return `false`; the code returns `true` because the
truthiness guard `if (statement.StartDate)` skips the empty string entirely. -/
theorem claim5_counterexample :
    ({ Effect := .Allow, Action := [], Resource := [], StartDate := some [] }
        : PolicyStatement).StartDate = some [] ∧
    parseNone [] = none ∧
    isStatementActive parseNone 0
      { Effect := .Allow, Action := [], Resource := [], StartDate := some [] } = true :=
  ⟨rfl, rfl, by decide⟩

/-- C5 (amended): temporal activation is total and fails closed for non-empty
date strings — no dates means active; a present **non-empty** unparseable
`StartDate` or `EndDate` yields `false` (an empty-string date is treated as
absent); `now` strictly before a parsed `StartDate` or strictly after a
parsed `EndDate` yields `false`; and both boundaries are inclusive: with
parsed bounds the statement is active exactly on `start ≤ now ≤ end`.
Totality (never throwing) is inherent: `isStatementActive` is a total
function. -/
theorem claim5_temporal_activation_fails_closed (parseDate : Str → Option Int) (now : Int)
    (s : PolicyStatement) :
    (s.StartDate = none → s.EndDate = none → isStatementActive parseDate now s = true) ∧
    (∀ d, s.StartDate = some d → d ≠ [] → parseDate d = none →
       isStatementActive parseDate now s = false) ∧
    (∀ d, s.EndDate = some d → d ≠ [] → parseDate d = none →
       isStatementActive parseDate now s = false) ∧
    (∀ d t, s.StartDate = some d → d ≠ [] → parseDate d = some t → now < t →
       isStatementActive parseDate now s = false) ∧
    (∀ d t, s.EndDate = some d → d ≠ [] → parseDate d = some t → t < now →
       isStatementActive parseDate now s = false) ∧
    (∀ d t, s.StartDate = some d → d ≠ [] → parseDate d = some t → s.EndDate = none →
       isStatementActive parseDate now s = decide (t ≤ now)) ∧
    (∀ d t, s.EndDate = some d → d ≠ [] → parseDate d = some t → s.StartDate = none →
       isStatementActive parseDate now s = decide (now ≤ t)) ∧
    (∀ ds de ts te, s.StartDate = some ds → ds ≠ [] → s.EndDate = some de → de ≠ [] →
       parseDate ds = some ts → parseDate de = some te →
       isStatementActive parseDate now s = (decide (ts ≤ now) && decide (now ≤ te))) := by
  refine ⟨?_, ?_, ?_, ?_, ?_, ?_, ?_, ?_⟩
  · intro h1 h2
    simp [isStatementActive, h1, h2]
  · intro d hd hne hp
    simp [isStatementActive, hd, hne, hp]
  · intro d hd hne hp
    simp [isStatementActive, hd, hne, hp]
  · intro d t hd hne hp hlt
    have hn : ¬ t ≤ now := not_le.mpr hlt
    simp [isStatementActive, hd, hne, hp, hn]
  · intro d t hd hne hp hlt
    have hn : ¬ now ≤ t := not_le.mpr hlt
    simp [isStatementActive, hd, hne, hp, hn]
  · intro d t hd hne hp he
    simp [isStatementActive, hd, hne, hp, he]
  · intro d t hd hne hp hs
    simp [isStatementActive, hd, hne, hp, hs]
  · intro ds de ts te hsd hne hed hne' hps hpe
    simp [isStatementActive, hsd, hne, hed, hne', hps, hpe]

/-- Parses exactly the two date strings `"s"` (→ 5) and `"e"` (→ 9). -/
def parse5 : Str → Option Int := fun d =>
  if d = ['s'] then some 5 else if d = ['e'] then some 9 else none

/-- A statement whose window is `[5, 9]` under `parse5`. -/
def st5 : PolicyStatement :=
  { Effect := .Allow, Action := [['a']], Resource := [['r']],
    StartDate := some ['s'], EndDate := some ['e'] }

/-- C5 witness: the inclusive-boundary clause at `now = StartDate`. -/
theorem claim5_witness : isStatementActive parse5 5 st5 = true := by
  have h := (claim5_temporal_activation_fails_closed parse5 5 st5).2.2.2.2.2.2.2
    ['s'] ['e'] 5 9 rfl (by decide) rfl (by decide) (by decide) (by decide)
  rw [h]
  decide

/-- C9: orchestrator aggregation — whenever storage resolves the user,
`hasAccess` returns exactly `evaluate` applied to the user's direct policies
followed by the policies of each role in role iteration order. -/
theorem claim9_hasAccess_aggregation (repo : IBaseRepository) (parseDate : Str → Option Int)
    (now : Int) (userId : Str) (user : User) (action resource : Str)
    (context : List (Str × Value)) (h : repo.getUser userId = some user) :
    hasAccess repo parseDate now userId action resource context =
      some (evaluate parseDate now
        (repo.getUserPolicies userId ++ ((user.roles.getD []).map repo.getRolePolicies).flatten)
        action resource context) := by
  simp only [hasAccess, h]

/-- A user holding one role `"g"`. -/
def user9 : User := { id := ['u'], name := [], roles := some [['g']] }

/-- Direct policy: allow `"r"` on `"d"`. -/
def polDirect9 : Policy :=
  { id := ['P'],
    document := { Version := [], Statement := [{ Effect := .Allow, Action := [['r']], Resource := [['d']] }] } }

/-- Role policy: allow `"w"` on `"d"`. -/
def polRole9 : Policy :=
  { id := ['Q'],
    document := { Version := [], Statement := [{ Effect := .Allow, Action := [['w']], Resource := [['d']] }] } }

/-- A concrete storage collaborator for the C9 witness. -/
def repo9 : IBaseRepository :=
  { getUser := fun uid => if uid = ['u'] then some user9 else none,
    getUserPolicies := fun uid => if uid = ['u'] then [polDirect9] else [],
    getRolePolicies := fun rid => if rid = ['g'] then [polRole9] else [] }

/-- C9 witness: the role-derived policy grants `"w"` on `"d"` through
`hasAccess`. -/
theorem claim9_witness : hasAccess repo9 parseNone 0 ['u'] ['w'] ['d'] [] = some true := by
  have h := claim9_hasAccess_aggregation repo9 parseNone 0 ['u'] user9 ['w'] ['d'] []
    (by decide)
  rw [h]
  decide

end Rbac

namespace Rbac

/-! ## Statement-builder validation (C7) -/

/-- One optional date field passes validation: absent, empty (the truthiness
guard skips it), or parseable. -/
def dateFieldOk (parseDate : Str → Option Int) : Option Str → Bool
  | none => true
  | some d => d.isEmpty || (parseDate d).isSome

/-- The date-order rule: whenever both dates are present, non-empty and
parseable, the start must be strictly before the end. -/
def dateOrderOk (parseDate : Str → Option Int) : Option Str → Option Str → Bool
  | some ds, some de =>
    if ds.isEmpty || de.isEmpty then true
    else
      match parseDate ds, parseDate de with
      | some ts, some te => decide (ts < te)
      | _, _ => true
  | _, _ => true

/-- Conjunction of every statement-builder validation rule. -/
def statementRulesOk (parseDate : Str → Option Int) (b : StatementBuilder) : Bool :=
  b.effect.isSome && !b.actions.isEmpty && !b.resources.isEmpty &&
  b.actions.all (fun a => !a.isEmpty) && b.resources.all (fun r => !r.isEmpty) &&
  dateFieldOk parseDate b.startDate && dateFieldOk parseDate b.endDate &&
  dateOrderOk parseDate b.startDate b.endDate

lemma effectBlock_eq_nil (o : Option Effect) :
    ((if o.isNone then [msgEffect] else []) = []) ↔ o.isSome = true := by
  rcases o with _ | e <;> simp

lemma lengthBlock_eq_nil (l : List Str) (m : String) :
    ((if l.length = 0 then [m] else []) = []) ↔ (!l.isEmpty) = true := by
  rcases l with _ | ⟨a, l⟩ <;> simp

lemma entriesBlock_eq_nil (l : List Str) (m : String) :
    ((if l.any (fun a => a.isEmpty) then [m] else []) = []) ↔
      l.all (fun a => !a.isEmpty) = true := by
  have hall : l.all (fun a => !a.isEmpty) = !(l.any fun a => a.isEmpty) := by
    induction l <;> simp_all
  by_cases h : l.any (fun a => a.isEmpty) = true <;> simp [h, hall]

lemma dateBlock_eq_nil (parseDate : Str → Option Int) (o : Option Str) (m : String) :
    ((match o with
      | some d => if d ≠ [] ∧ parseDate d = none then [m] else []
      | none => []) = []) ↔ dateFieldOk parseDate o = true := by
  rcases o with _ | d
  · simp [dateFieldOk]
  · by_cases hd : d = []
    · simp [dateFieldOk, hd]
    · rcases hp : parseDate d with _ | t <;>
        simp [dateFieldOk, hd, hp, List.isEmpty_iff]

lemma orderBlock_eq_nil (parseDate : Str → Option Int) (o1 o2 : Option Str) :
    ((match o1, o2 with
      | some ds, some de =>
        if ds ≠ [] ∧ de ≠ [] then
          match parseDate ds, parseDate de with
          | some ts, some te => if ts ≥ te then [msgDateOrder] else []
          | _, _ => []
        else []
      | _, _ => []) = []) ↔ dateOrderOk parseDate o1 o2 = true := by
  rcases o1 with _ | ds <;> rcases o2 with _ | de
  · simp [dateOrderOk]
  · simp [dateOrderOk]
  · simp [dateOrderOk]
  · by_cases h1 : ds = []
    · simp [dateOrderOk, h1, List.isEmpty_iff]
    · by_cases h2 : de = []
      · simp [dateOrderOk, h1, h2, List.isEmpty_iff]
      · rcases hps : parseDate ds with _ | ts <;> rcases hpe : parseDate de with _ | te <;>
          simp [dateOrderOk, h1, h2, hps, hpe, List.isEmpty_iff]

lemma validate_eq_nil_iff (parseDate : Str → Option Int) (b : StatementBuilder) :
    (StatementBuilder.validate parseDate b = []) ↔ statementRulesOk parseDate b = true := by
  unfold StatementBuilder.validate
  simp only [List.append_eq_nil]
  rw [effectBlock_eq_nil, lengthBlock_eq_nil _ msgNoActions, lengthBlock_eq_nil _ msgNoResources,
    entriesBlock_eq_nil _ msgActionStrings, entriesBlock_eq_nil _ msgResourceStrings,
    dateBlock_eq_nil _ _ msgStartDate, dateBlock_eq_nil _ _ msgEndDate,
    orderBlock_eq_nil]
  simp only [statementRulesOk, Bool.and_eq_true]

end Rbac

namespace Rbac

lemma build_eq_error_errors {parseDate : Str → Option Int} {b : StatementBuilder}
    {e : BuilderValidationError} (h : StatementBuilder.build parseDate b = .error e) :
    e.errors = StatementBuilder.validate parseDate b := by
  unfold StatementBuilder.build at h
  by_cases hv : (StatementBuilder.validate parseDate b).isEmpty
  · rw [if_pos hv] at h
    rcases heff : b.effect with _ | ev
    · rw [heff] at h
      simp only [Except.error.injEq] at h
      rw [← h]
    · rw [heff] at h
      cases h
  · rw [if_neg hv] at h
    simp only [Except.error.injEq] at h
    rw [← h]

lemma build_ok_iff {parseDate : Str → Option Int} {b : StatementBuilder} :
    (∃ st, StatementBuilder.build parseDate b = .ok st) ↔
      StatementBuilder.validate parseDate b = [] := by
  constructor
  · rintro ⟨st, hst⟩
    unfold StatementBuilder.build at hst
    by_cases hv : (StatementBuilder.validate parseDate b).isEmpty
    · exact List.isEmpty_iff.mp hv
    · rw [if_neg hv] at hst
      cases hst
  · intro hv
    have heff : b.effect.isSome = true := by
      have h1 := (validate_eq_nil_iff parseDate b).mp hv
      simp only [statementRulesOk, Bool.and_eq_true] at h1
      exact h1.1.1.1.1.1.1.1
    obtain ⟨ev, hev⟩ := Option.isSome_iff_exists.mp heff
    refine ⟨{ Effect := ev, Action := b.actions, Resource := b.resources,
              Condition := b.conditions,
              StartDate := match b.startDate with
                | some d => if d = [] then none else some d
                | none => none,
              EndDate := match b.endDate with
                | some d => if d = [] then none else some d
                | none => none }, ?_⟩
    unfold StatementBuilder.build
    rw [hv]
    simp [hev]

end Rbac

namespace Rbac

/-- Parses exactly `"b"` (→ 10) and `"a"` (→ 5); `"b"` therefore parses to a
strictly later instant than `"a"` (an inverted date range). -/
def parse7 : Str → Option Int := fun d =>
  if d = ['b'] then some 10 else if d = ['a'] then some 5 else none

/-- A builder with no effect, no actions, one resource, and an inverted date
range under `parse7`. -/
def sb7bad : StatementBuilder :=
  { resources := [['d']], startDate := some ['b'], endDate := some ['a'] }

/-- A builder whose `StartDate` was set to the empty string via the fluent
API. -/
def sb7empty : StatementBuilder :=
  StatementBuilder.activeFrom [] (StatementBuilder.onRes [['d']] (StatementBuilder.allow [['r']] {}))

/-- C7 counterexample: this builder carries a present `StartDate` (the empty
string) that is unparseable (`parseNone` parses nothing, matching JavaScript
where `new Date('')` is invalid), so the claimed success-iff-no-rule-violated
equivalence requires `build()` to fail; instead `build()` succeeds, because
the truthiness guard `if (this.startDate)` skips empty-string dates during
validation, and the date is silently dropped from the built statement. -/
theorem claim7_counterexample :
    sb7empty.startDate = some [] ∧ parseNone [] = none ∧
    StatementBuilder.build parseNone sb7empty =
      .ok { Effect := .Allow, Action := [['r']], Resource := [['d']] } :=
  ⟨rfl, rfl, rfl⟩

/-- C7 (amended): `build()` succeeds iff no validation rule is violated, where
the two date-parseability rules and the date-order rule apply to present
**non-empty** date strings (an empty-string date is skipped by the code's
truthiness guard); on failure the raised error's list contains every violated
rule, not just the first; and the claim's example — no effect, no actions and
an inverted date range — fails with exactly the three distinct violations
`effect`, `actions` and `date order`. -/
theorem claim7_statement_builder_validation (parseDate : Str → Option Int)
    (b : StatementBuilder) :
    ((∃ st, StatementBuilder.build parseDate b = .ok st) ↔
       statementRulesOk parseDate b = true) ∧
    (∀ e, StatementBuilder.build parseDate b = .error e →
       (b.effect = none → msgEffect ∈ e.errors) ∧
       (b.actions = [] → msgNoActions ∈ e.errors) ∧
       (b.resources = [] → msgNoResources ∈ e.errors) ∧
       (∀ a ∈ b.actions, a = [] → msgActionStrings ∈ e.errors) ∧
       (∀ r ∈ b.resources, r = [] → msgResourceStrings ∈ e.errors) ∧
       (∀ d, b.startDate = some d → d ≠ [] → parseDate d = none →
          msgStartDate ∈ e.errors) ∧
       (∀ d, b.endDate = some d → d ≠ [] → parseDate d = none →
          msgEndDate ∈ e.errors) ∧
       (∀ ds de ts te, b.startDate = some ds → ds ≠ [] → b.endDate = some de → de ≠ [] →
          parseDate ds = some ts → parseDate de = some te → te ≤ ts →
          msgDateOrder ∈ e.errors)) ∧
    StatementBuilder.build parse7 sb7bad =
      .error { message := msgInvalidStatement,
               errors := [msgEffect, msgNoActions, msgDateOrder] } := by
  refine ⟨build_ok_iff.trans (validate_eq_nil_iff parseDate b), ?_, rfl⟩
  intro e he
  rw [build_eq_error_errors he]
  unfold StatementBuilder.validate
  refine ⟨?_, ?_, ?_, ?_, ?_, ?_, ?_, ?_⟩
  · intro h
    simp [h]
  · intro h
    simp [h]
  · intro h
    simp [h]
  · intro a ha hae
    have : b.actions.any (fun x => x.isEmpty) = true := by
      rw [List.any_eq_true]
      exact ⟨a, ha, by simp [hae]⟩
    simp [this]
  · intro r hr hre
    have : b.resources.any (fun x => x.isEmpty) = true := by
      rw [List.any_eq_true]
      exact ⟨r, hr, by simp [hre]⟩
    simp [this]
  · intro d hd hne hp
    simp [hd, hne, hp]
  · intro d hd hne hp
    simp [hd, hne, hp]
  · intro ds de ts te hsd hne hed hne' hps hpe hle
    simp [hsd, hed, hne, hne', hps, hpe, ge_iff_le, hle]

/-- A fully valid builder for the C7 witness. -/
def sbOk7 : StatementBuilder :=
  StatementBuilder.onRes [['d']] (StatementBuilder.allow [['r']] {})

/-- C7 witness: the success direction of the amended theorem at a concrete,
fully valid builder. -/
theorem claim7_witness : ∃ st, StatementBuilder.build parseNone sbOk7 = .ok st :=
  (claim7_statement_builder_validation parseNone sbOk7).1.mpr (by decide)

end Rbac

namespace Rbac

/-! ## Policy-builder mode exclusivity (C8) -/

/-- `version(version)` (src/builders/policy-builder.ts, lines 58-61): plain
setter, usable in either mode. -/
def PolicyBuilder.version (v : Str) (b : PolicyBuilder) : PolicyBuilder :=
  { b with documentVersion := v }

/-- One method call on a `PolicyBuilder` instance. -/
inductive BuilderCall where
  | allow (acts : List Str)
  | deny (acts : List Str)
  | onRes (res : List Str)
  | when (conds : List (Str × Str))
  | activeFrom (d : Str)
  | activeUntil (d : Str)
  | version (v : Str)
  | statement (arg : StatementArg)

/-- Dispatches one method call to the embedded `PolicyBuilder` methods. -/
def applyCall (parseDate : Str → Option Int) :
    BuilderCall → PolicyBuilder → Except BuilderValidationError PolicyBuilder
  | .allow acts, b => PolicyBuilder.allow acts b
  | .deny acts, b => PolicyBuilder.deny acts b
  | .onRes res, b => PolicyBuilder.onRes res b
  | .when conds, b => PolicyBuilder.when conds b
  | .activeFrom d, b => PolicyBuilder.activeFrom d b
  | .activeUntil d, b => PolicyBuilder.activeUntil d b
  | .version v, b => .ok (PolicyBuilder.version v b)
  | .statement arg, b => PolicyBuilder.statement parseDate arg b

/-- The six simple-mode methods. -/
def isSimpleCall : BuilderCall → Bool
  | .allow _ => true
  | .deny _ => true
  | .onRes _ => true
  | .when _ => true
  | .activeFrom _ => true
  | .activeUntil _ => true
  | .version _ => false
  | .statement _ => false

/-- Invariant of every reachable `PolicyBuilder` state: the simple-mode flag
is set exactly when the implicit statement builder exists (the constructor
establishes it and every method preserves it). -/
def SimpleModeInv (b : PolicyBuilder) : Prop :=
  b.hasSimpleStatement = b.simpleStatementBuilder.isSome

lemma ensure_error_of_statements {b : PolicyBuilder} (h : b.policyStatements ≠ []) :
    PolicyBuilder.ensureSimpleStatementMode b =
      .error { message := msgMixSimpleAfterComplex } := by
  unfold PolicyBuilder.ensureSimpleStatementMode
  rw [if_pos (List.length_pos.mpr h)]

lemma ensure_ok_state {b b' : PolicyBuilder}
    (h : PolicyBuilder.ensureSimpleStatementMode b = .ok b') (hinv : SimpleModeInv b) :
    b'.hasSimpleStatement = true ∧ b'.simpleStatementBuilder.isSome = true ∧
      b'.policyStatements = b.policyStatements := by
  unfold PolicyBuilder.ensureSimpleStatementMode at h
  by_cases h1 : b.policyStatements.length > 0
  · rw [if_pos h1] at h
    cases h
  · rw [if_neg h1] at h
    by_cases h2 : b.simpleStatementBuilder.isNone = true
    · rw [if_pos h2] at h
      injection h with h'
      subst h'
      exact ⟨rfl, rfl, rfl⟩
    · rw [if_neg h2] at h
      injection h with h'
      subst h'
      have hs : b.simpleStatementBuilder.isSome = true := by
        rcases hb : b.simpleStatementBuilder with _ | sb
        · rw [hb] at h2
          simp at h2
        · rfl
      exact ⟨hinv.trans hs, hs, rfl⟩

lemma simpleOp_ok {g : StatementBuilder → StatementBuilder} {b b' : PolicyBuilder}
    (h : (PolicyBuilder.ensureSimpleStatementMode b).map
        (fun x => { x with simpleStatementBuilder := x.simpleStatementBuilder.map g }) = .ok b')
    (hinv : SimpleModeInv b) :
    b'.hasSimpleStatement = true ∧ SimpleModeInv b' := by
  rcases he : PolicyBuilder.ensureSimpleStatementMode b with e | b''
  · rw [he] at h
    cases h
  · rw [he] at h
    simp only [Except.map] at h
    injection h with h'
    subst h'
    obtain ⟨hf, hsome, _⟩ := ensure_ok_state he hinv
    refine ⟨hf, ?_⟩
    unfold SimpleModeInv
    simp [hf, Option.isSome_map, hsome]

lemma statement_ok_state {parseDate : Str → Option Int} {arg : StatementArg}
    {b b' : PolicyBuilder} (h : PolicyBuilder.statement parseDate arg b = .ok b') :
    b'.policyStatements ≠ [] ∧ b'.hasSimpleStatement = b.hasSimpleStatement ∧
      b'.simpleStatementBuilder = b.simpleStatementBuilder := by
  unfold PolicyBuilder.statement at h
  by_cases hs : b.hasSimpleStatement = true
  · rw [if_pos hs] at h
    cases h
  · rw [if_neg hs] at h
    rcases hr : PolicyBuilder.resolveArg parseDate arg with e | stt <;> rw [hr] at h
    · cases h
    · injection h with h'
      subst h'
      exact ⟨by simp, rfl, rfl⟩

/-- C8: the two construction modes of a `PolicyBuilder` are mutually exclusive
at use time — the constructor establishes the mode invariant and every
successful call preserves it; after a successful `statement()` call every
simple-mode method (`allow`, `deny`, `on`, `when`, `activeFrom`,
`activeUntil`) raises a `BuilderValidationError`; and after a successful
simple-mode call, `statement()` raises a `BuilderValidationError`. -/
theorem claim8_policy_builder_mode_exclusivity (parseDate : Str → Option Int) :
    (∀ id, SimpleModeInv (PolicyBuilder.create id)) ∧
    (∀ c b b', applyCall parseDate c b = .ok b' → SimpleModeInv b → SimpleModeInv b') ∧
    (∀ arg b b', PolicyBuilder.statement parseDate arg b = .ok b' →
       ∀ c, isSimpleCall c = true →
         applyCall parseDate c b' = .error { message := msgMixSimpleAfterComplex }) ∧
    (∀ c b b', isSimpleCall c = true → applyCall parseDate c b = .ok b' → SimpleModeInv b →
       ∀ arg, PolicyBuilder.statement parseDate arg b' =
         .error { message := msgMixComplexAfterSimple }) := by
  refine ⟨fun id => rfl, ?_, ?_, ?_⟩
  · intro c b b' h hinv
    cases c with
    | allow acts =>
      unfold applyCall PolicyBuilder.allow at h
      exact (simpleOp_ok h hinv).2
    | deny acts =>
      unfold applyCall PolicyBuilder.deny at h
      exact (simpleOp_ok h hinv).2
    | onRes res =>
      unfold applyCall PolicyBuilder.onRes at h
      exact (simpleOp_ok h hinv).2
    | when conds =>
      unfold applyCall PolicyBuilder.when at h
      exact (simpleOp_ok h hinv).2
    | activeFrom d =>
      unfold applyCall PolicyBuilder.activeFrom at h
      exact (simpleOp_ok h hinv).2
    | activeUntil d =>
      unfold applyCall PolicyBuilder.activeUntil at h
      exact (simpleOp_ok h hinv).2
    | version v =>
      unfold applyCall at h
      injection h with h'
      subst h'
      exact hinv
    | statement arg =>
      unfold applyCall at h
      obtain ⟨_, hflag, hbuilder⟩ := statement_ok_state h
      unfold SimpleModeInv
      rw [hflag, hbuilder]
      exact hinv
  · intro arg b b' h c hc
    have hne := (statement_ok_state h).1
    cases c with
    | allow acts =>
      simp only [applyCall]
      unfold PolicyBuilder.allow
      rw [ensure_error_of_statements hne]
      rfl
    | deny acts =>
      simp only [applyCall]
      unfold PolicyBuilder.deny
      rw [ensure_error_of_statements hne]
      rfl
    | onRes res =>
      simp only [applyCall]
      unfold PolicyBuilder.onRes
      rw [ensure_error_of_statements hne]
      rfl
    | when conds =>
      simp only [applyCall]
      unfold PolicyBuilder.when
      rw [ensure_error_of_statements hne]
      rfl
    | activeFrom d =>
      simp only [applyCall]
      unfold PolicyBuilder.activeFrom
      rw [ensure_error_of_statements hne]
      rfl
    | activeUntil d =>
      simp only [applyCall]
      unfold PolicyBuilder.activeUntil
      rw [ensure_error_of_statements hne]
      rfl
    | version v => cases hc
    | statement arg' => cases hc
  · intro c b b' hc h hinv arg
    have hflag : b'.hasSimpleStatement = true := by
      cases c with
      | allow acts =>
        unfold applyCall PolicyBuilder.allow at h
        exact (simpleOp_ok h hinv).1
      | deny acts =>
        unfold applyCall PolicyBuilder.deny at h
        exact (simpleOp_ok h hinv).1
      | onRes res =>
        unfold applyCall PolicyBuilder.onRes at h
        exact (simpleOp_ok h hinv).1
      | when conds =>
        unfold applyCall PolicyBuilder.when at h
        exact (simpleOp_ok h hinv).1
      | activeFrom d =>
        unfold applyCall PolicyBuilder.activeFrom at h
        exact (simpleOp_ok h hinv).1
      | activeUntil d =>
        unfold applyCall PolicyBuilder.activeUntil at h
        exact (simpleOp_ok h hinv).1
      | version v => cases hc
      | statement arg' => cases hc
    unfold PolicyBuilder.statement
    rw [if_pos hflag]

/-- The builder state reached from `new PolicyBuilder("p")` by one
`allow(["r"])` call. -/
def pb8 : PolicyBuilder :=
  { policyId := ['p'], hasSimpleStatement := true,
    simpleStatementBuilder := some (StatementBuilder.allow [['r']] {}) }

/-- C8 witness: after `allow` on a fresh builder, `statement()` fails with the
mode-mixing error. -/
theorem claim8_witness :
    PolicyBuilder.statement parseNone
      (.stmt { Effect := .Deny, Action := [['x']], Resource := [['y']] }) pb8 =
      .error { message := msgMixComplexAfterSimple } :=
  (claim8_policy_builder_mode_exclusivity parseNone).2.2.2 (.allow [['r']])
    (PolicyBuilder.create ['p']) pb8 rfl rfl rfl
    (.stmt { Effect := .Deny, Action := [['x']], Resource := [['y']] })

end Rbac

namespace Rbac

/-- Allow `"r"` on `"d"`. -/
def polA1 : Policy :=
  { id := ['A'],
    document := { Version := [], Statement := [{ Effect := .Allow, Action := [['r']], Resource := [['d']] }] } }

/-- Deny `"r"` on `"d"`. -/
def polD1 : Policy :=
  { id := ['D'],
    document := { Version := [], Statement := [{ Effect := .Deny, Action := [['r']], Resource := [['d']] }] } }

/-- C1 witness: both clauses at a concrete Allow/Deny pair — swapping the two
policies preserves the result, and both orders deny. -/
theorem claim1_witness :
    evaluate parseNone 0 [polA1, polD1] ['r'] ['d'] [] =
      evaluate parseNone 0 [polD1, polA1] ['r'] ['d'] [] ∧
    evaluate parseNone 0 [polA1, polD1] ['r'] ['d'] [] = false ∧
    evaluate parseNone 0 [polD1, polA1] ['r'] ['d'] [] = false := by
  have h2 := claim1_deny_override_order_independence.2 parseNone 0 polA1 polD1
    ['r'] ['d'] [] (by decide) (by decide)
  exact ⟨claim1_deny_override_order_independence.1 parseNone 0 [polA1, polD1]
    [polD1, polA1] ['r'] ['d'] [] (by decide), h2.1, h2.2⟩

/-- A Deny policy whose only statement is temporally inactive under
`parseNone` (its `StartDate` is present, non-empty and unparseable). -/
def polInactive2 : Policy :=
  { id := ['I'],
    document := { Version := [], Statement := [{ Effect := .Deny, Action := [['r']], Resource := [['d']], StartDate := some ['x'] }] } }

/-- C2 witness: appending an all-inactive Deny policy to a concrete policy
list leaves the decision unchanged. -/
theorem claim2_witness :
    evaluate parseNone 0 ([polA1] ++ [polInactive2]) ['r'] ['d'] [] =
      evaluate parseNone 0 [polA1] ['r'] ['d'] [] :=
  claim2_inactive_statements_no_effect.2 parseNone 0 [polA1] ['r'] ['d'] []
    polInactive2 (by decide)

/-- C4 witness: an exactly-matching context satisfies the condition, and a
context missing the declared key fails it. -/
theorem claim4_witness :
    evaluateCondition [(['k'], ['v'])] [(['k'], .str ['v'])] = true ∧
    evaluateCondition [(['k'], ['v'])] [] = false :=
  ⟨(claim4_condition_evaluation [(['k'], ['v'])] [(['k'], .str ['v'])]).1.mpr (by decide),
   (claim4_condition_evaluation [(['k'], ['v'])] []).2.1 ⟨(['k'], ['v']), by decide, rfl⟩⟩

end Rbac
